import Mathlib

/-!
Verification of the core scrape-and-ingest pipeline of the auction data loader:
the pagination loop of the daily sale scraper, the DB write layer, the
duplicate-cleaning reconciliation pass, and the JSON flattener and ingestion
orchestrator of the sale-info loader.  Each Lean definition is a shallow
embedding of the corresponding Python function, translated from the source
files `listing_scraper_step3_scrape_sale_daily_v2.py`, `db.py`,
`duplicate_cleaner.py` and `listing_scraper_step4_sale_info_to_db.py`.
Code that raises in Python is modelled with `Except`; a Python `try/except`
becomes a match on the `Except` value.
-/

/- ## Paginator: `DailySaleScraper.process_single_auction` (step3 v2, lines 517-588)

One iteration of the `while True` loop navigates, scans and replays the POST
request for the current page; those three steps are collapsed into one
`fetch` function returning `none` when any of them fails (the `break` paths)
and otherwise the analysis of the saved response: the reported
`@odata.count` and the number of items in the page.  The loop state is the
current page number (starting at 1) and `total_items_collected`; after a
successful fetch the loop continues exactly when
`total_items_collected < odata_count` for the most recent response.
The Lean loop carries explicit fuel; returning `none` means the Python loop
has not terminated within that many iterations. -/

structure FetchResult where
  odata_count : Nat
  items_count : Nat
deriving DecidableEq

def paginateLoop (fetch : Nat → Option FetchResult) : Nat → Nat → Nat → Option (Nat × Nat)
  | 0, _, _ => none
  | Nat.succ fuel, page, collected =>
    match fetch page with
    | none => some (page, collected)
    | some r =>
      if collected + r.items_count < r.odata_count then
        paginateLoop fetch fuel (page + 1) (collected + r.items_count)
      else
        some (page, collected + r.items_count)

/-- The pagination part of `process_single_auction`: page starts at 1 and
`total_items_collected` at 0.  The returned pair is (last page fetched,
total items collected); since every loop iteration fetches exactly the
current page, the first component is also the number of page fetches. -/
def process_single_auction (fetch : Nat → Option FetchResult) (fuel : Nat) : Option (Nat × Nat) :=
  paginateLoop fetch fuel 1 0

/-- A source that reports a fixed total `T` spread across pages of size `S`:
page `p` carries `min S (T - (p-1)*S)` items and always reports total `T`. -/
def fetchTS (T S : Nat) : Nat → Option FetchResult :=
  fun page => some ⟨T, min S (T - (page - 1) * S)⟩

/-- A server-inconsistent source: every page is fetched successfully but
carries an empty `value` list while reporting a positive total. -/
def inconsistentFetch : Nat → Option FetchResult :=
  fun _ => some ⟨10, 0⟩

/- ## DB layer: `MySecondDB.write_to_sql` (db.py, lines 82-86)

The method wraps `df.to_sql(...)` in `try/except`; the except branch only
logs and the method falls through, returning `None`.  The table is a list of
rows of an arbitrary row type; `to_sql` with `if_exists='append'` appends
the rows or raises, modelled by the `raises` flag. -/

def to_sqlTable {α : Type} (raises : Bool) (table rows : List α) : Except String (List α) :=
  if raises then Except.error "to_sql failed" else Except.ok (table ++ rows)

/-- Embedding of `write_to_sql`: the pair is (table after the call, what the
method does towards its caller).  The second component is `Except.ok ()`
in both branches: on error the method logs and returns `None` just as on
success. -/
def write_to_sql {α : Type} (raises : Bool) (table rows : List α) : List α × Except String Unit :=
  match to_sqlTable raises table rows with
  | Except.ok t2 => (t2, Except.ok ())
  | Except.error _ => (table, Except.ok ())

/- ## Deduplicating loader: `DuplicateCleaner` (duplicate_cleaner.py)

A table row for the reconciliation pass: the `partition_by` column value,
the `order_by` column value, and the remaining columns collapsed into an
opaque payload. -/

structure Row where
  pkey : String
  okey : Int
  payload : String
deriving DecidableEq

/-- Earliest row with maximal `okey` among `best :: rest`, mimicking
`ROW_NUMBER() OVER (PARTITION BY ... ORDER BY ... DESC)` keeping
`row_num = 1`; the SQL tie-break and row order are unspecified, modelled
deterministically as first-wins. -/
def pickMax (best : Row) : List Row → Row
  | [] => best
  | x :: xs => pickMax (if best.okey < x.okey then x else best) xs

def rowsFor (t : List Row) (k : String) : List Row :=
  t.filter (fun r => decide (r.pkey = k))

def insKey (acc : List String) (k : String) : List String :=
  if k ∈ acc then acc else acc ++ [k]

def keysAux (acc : List String) : List Row → List String
  | [] => acc
  | r :: rest => keysAux (insKey acc r.pkey) rest

/-- Distinct `partition_by` values of the table in order of first appearance. -/
def keysFirst (t : List Row) : List String :=
  keysAux [] t

/-- The surviving row for one partition key: the row the window query ranks
first, if the partition is non-empty. -/
def chooseRow (t : List Row) (k : String) : Option Row :=
  match rowsFor t k with
  | [] => none
  | r :: rs => some (pickMax r rs)

/-- Result set of the dedup `SELECT` of `clean_duplicates` (lines 56-68):
one row per distinct partition key, the row with maximal order key. -/
def dedupTable (t : List Row) : List Row :=
  (keysFirst t).filterMap (chooseRow t)

def distinctPartitionKeys (t : List Row) : Nat :=
  (keysFirst t).length

/-- Observable actions of a reconciliation or restore run, in the order the
code performs them. -/
inductive Ev where
  | backupWrite
  | truncate
  | insertMain
  | insertFallback
  | insertRestore
deriving DecidableEq

structure CleanResult where
  table : List Row
  ret : Int
  backupFile : Option (List Row)
  events : List Ev

/-- Embedding of `DuplicateCleaner.clean_duplicates` (lines 30-175).
Steps of the source, in order: dedup `SELECT` (modelled as the pure
`dedupTable`); early return 0 when the result set is empty; write the
backup JSON file (the `backupRaises` flag models `open`/`json.dump`
raising, which the outer `except` turns into return -1 before any
destructive step); `TRUNCATE TABLE`; `write_to_sql` of the deduplicated
set inside an inner `try`, whose `except` branch reloads from the backup
file; finally return the post-run `COUNT(*)`.  `backup0` is the backup
file content before the run; `toSqlRaises` models the underlying
`df.to_sql` raising inside `write_to_sql`. -/
def clean_duplicates (t : List Row) (backup0 : Option (List Row))
    (backupRaises toSqlRaises : Bool) : CleanResult :=
  if dedupTable t = [] then
    { table := t, ret := 0, backupFile := backup0, events := [] }
  else if backupRaises then
    { table := t, ret := -1, backupFile := backup0, events := [] }
  else
    match write_to_sql toSqlRaises [] (dedupTable t) with
    | (t2, Except.ok _) =>
        { table := t2, ret := Int.ofNat t2.length, backupFile := some (dedupTable t),
          events := [Ev.backupWrite, Ev.truncate, Ev.insertMain] }
    | (_, Except.error _) =>
        if (dedupTable t).isEmpty then
          { table := [], ret := -1, backupFile := some (dedupTable t),
            events := [Ev.backupWrite, Ev.truncate, Ev.insertMain] }
        else
          match write_to_sql false [] (dedupTable t) with
          | (t3, _) =>
              { table := t3, ret := Int.ofNat t3.length, backupFile := some (dedupTable t),
                events := [Ev.backupWrite, Ev.truncate, Ev.insertMain, Ev.insertFallback] }

structure RestoreResult where
  table : List Row
  ret : Int
  events : List Ev

/-- Embedding of `DuplicateCleaner.restore_from_json` (lines 177-224).
`backupFS` models the backup file: `none` when the file does not exist,
`some (Except.error e)` when `json.load` raises (caught by the outer
`except`, which returns -1), `some (Except.ok rows)` when it parses.
The DataFrame construction and datetime coercions of the source do not
raise on a non-empty record list and do not affect row count; they are
not modelled. -/
def restore_from_json (backupFS : Option (Except String (List Row)))
    (t : List Row) (toSqlRaises : Bool) : RestoreResult :=
  match backupFS with
  | none => { table := t, ret := -1, events := [] }
  | some (Except.error _) => { table := t, ret := -1, events := [] }
  | some (Except.ok jsonData) =>
      if jsonData = [] then
        { table := t, ret := -1, events := [] }
      else
        match write_to_sql toSqlRaises [] jsonData with
        | (t2, _) =>
            { table := t2, ret := Int.ofNat jsonData.length,
              events := [Ev.truncate, Ev.insertRestore] }

/- ## Flattener: `SaleInfoLoader.flatten_json_data` (step4, lines 81-323)

A JSON value as produced by `json.load`.  Python operations that can raise
on a value of the wrong shape (`in`, indexing, iteration, attribute access)
are modelled as `Except`-valued helpers below. -/

inductive JVal where
  | jnull : JVal
  | jbool : Bool → JVal
  | jnum : Int → JVal
  | jstr : String → JVal
  | jarr : List JVal → JVal
  | jobj : List (String × JVal) → JVal

/-- Python truthiness of a JSON value, as used by `or` and by
`if not record.get(...)`. -/
def jtruthy : JVal → Bool
  | JVal.jnull => false
  | JVal.jbool b => b
  | JVal.jnum n => decide (n ≠ 0)
  | JVal.jstr s => !(s.isEmpty)
  | JVal.jarr xs => !(xs.isEmpty)
  | JVal.jobj fs => !(fs.isEmpty)

def dictFind : List (String × JVal) → String → Option JVal
  | [], _ => none
  | (k2, v) :: rest, k => if k2 == k then some v else dictFind rest k

/-- Python `d.get(k)` on a value known to be a dict (`None` when absent). -/
def dGet (fs : List (String × JVal)) (k : String) : JVal :=
  (dictFind fs k).getD JVal.jnull

/-- Python `v.get(k)` on an arbitrary value: raises `AttributeError` unless
`v` is a dict. -/
def jgetE (v : JVal) (k : String) : Except String JVal :=
  match v with
  | JVal.jobj fs => Except.ok (dGet fs k)
  | _ => Except.error "AttributeError: object has no attribute get"

def startsWithChars : List Char → List Char → Bool
  | [], _ => true
  | _ :: _, [] => false
  | a :: as, b :: bs => a == b && startsWithChars as bs

def containsChars (needle : List Char) : List Char → Bool
  | [] => needle.isEmpty
  | b :: bs => startsWithChars needle (b :: bs) || containsChars needle bs

/-- Python `k in v`: key membership for dicts, element equality for lists,
substring test for strings; `TypeError` otherwise. -/
def jmemE (v : JVal) (k : String) : Except String Bool :=
  match v with
  | JVal.jobj fs => Except.ok (fs.any (fun f => f.1 == k))
  | JVal.jarr xs => Except.ok (xs.any (fun x =>
      match x with
      | JVal.jstr s => s == k
      | _ => false))
  | JVal.jstr s => Except.ok (containsChars k.data s.data)
  | _ => Except.error "TypeError: argument is not iterable"

/-- Python `v[k]` with a string key: dict lookup (`KeyError` when absent);
`TypeError` on every other shape, including lists and strings. -/
def jidxE (v : JVal) (k : String) : Except String JVal :=
  match v with
  | JVal.jobj fs =>
      match dictFind fs k with
      | some x => Except.ok x
      | none => Except.error "KeyError"
  | _ => Except.error "TypeError: indices must be integers"

/-- Python `for x in v`: lists iterate elements, strings iterate one-character
strings, dicts iterate keys; `TypeError` otherwise. -/
def jiterE : JVal → Except String (List JVal)
  | JVal.jarr xs => Except.ok xs
  | JVal.jstr s => Except.ok (s.data.map (fun c => JVal.jstr (String.mk [c])))
  | JVal.jobj fs => Except.ok (fs.map (fun f => JVal.jstr f.1))
  | _ => Except.error "TypeError: object is not iterable"

/-- A flattened record: the Python dict built per lot or item, as an ordered
association list (insertion order, later assignment overwrites in place). -/
abbrev JRecord := List (String × JVal)

def recSet : JRecord → String → JVal → JRecord
  | [], k, v => [(k, v)]
  | (k2, v2) :: rest, k, v =>
      if k2 == k then (k, v) :: rest else (k2, v2) :: recSet rest k v

def recGet (r : JRecord) (k : String) : JVal :=
  (dictFind r k).getD JVal.jnull

/-- Python `a or b`. -/
def pyOr (a b : JVal) : JVal :=
  if jtruthy a then a else b

/-- Sale-level columns copied from the `sale` object in both shapes
(step4 lines 122-133 and 266-268), in source order. -/
def saleCols : List String :=
  ["saleId", "saleNumber", "saleName", "saleStatus", "saleStart", "saleEnd",
   "saleEventLocation", "businessUnitName", "businessUnitId", "sellingChannelId",
   "saleStartTimezone", "saleEndTimezone"]

/-- Lot columns assigned by `record[c] = lot.get(c)` before the `car_keys`
special case (step4 lines 136-188), in source order. -/
def lotColsBeforeKeys : List String :=
  ["id", "assetId", "assetExternalId", "assetType", "stockNumber", "title",
   "shortDescription", "description", "make", "model", "badge", "series",
   "year", "built", "complianceDate", "body", "doors", "seats", "colour",
   "colourManufacturer", "trimType", "trimColour", "transmission", "driveType",
   "fuelType", "fuelSystem", "engineCapacity", "engineCapacityInLitres",
   "engineCapacityUnit", "cylinders", "induction", "gears", "power",
   "horsePower", "maxPowerRPM", "kilometres", "odometer", "odometerUnit",
   "hours", "fuelEconomy", "greenStarRating", "ancapSafetyRating",
   "vFactsClass", "registrationNumber", "registrationJurisdiction",
   "registrationExpiry", "vin", "redbookCode", "redbookDescription",
   "salvage", "salvageStatus", "driveable", "engineStarts"]

/-- Lot columns assigned after the `car_keys` special case
(step4 lines 190-231), in source order. -/
def lotColsAfterKeys : List String :=
  ["spareKeys", "plates", "platesNumber", "sellingPlates", "pPlateApproved",
   "ownersManual", "serviceHistory", "towingBraked", "gcm", "gvm", "tare",
   "length", "width", "height", "productLine", "productTypeFilter", "itemLoB",
   "vendorName", "businessUnitSelling", "buyMethod", "sellingMethodName",
   "forSale", "publiclySearchable", "price", "minimumBid", "buyNowPrice",
   "highestBid", "productBidEnd", "lotNumber", "lotNumberPrefix",
   "lotNumberSuffix", "saleLottingComplete", "productInSaleId",
   "productInSaleExternalId", "productLocationCity", "productLocationSuburb",
   "productLocationState", "productLocationTimeZone", "productTypeCode",
   "productTypeTitle", "etag", "expiryDate"]

/-- Nested `productLocation` columns of the direct-items shape
(step4 line 280). -/
def locCols : List String :=
  ["productLocationCity", "productLocationSuburb", "productLocationState",
   "productLocationTimeZone"]

/-- Nested `productType` columns of the direct-items shape (step4 line 293). -/
def typeCols : List String :=
  ["productTypeCode", "productTypeTitle"]

/-- One record of the sale-plus-lots shape (step4 lines 110-239): all schema
columns initialised to `None`, sale fields from `sale_info` (whose `.get`
raises when `sale` is not a dict), lot fields from the lot dict with the
`keys`-or-`car_keys` special case, then `createdAt`/`updatedAt` defaulted
to `now` when falsy. -/
def recordFromLot (saleInfo : JVal) (lot : List (String × JVal))
    (schemaCols : List String) (now : JVal) : Except String JRecord := do
  let r0 : JRecord := schemaCols.foldl (fun r c => recSet r c JVal.jnull) []
  let r1 ← saleCols.foldlM (fun r c => do
    let v ← jgetE saleInfo c
    pure (recSet r c v)) r0
  let r2 := lotColsBeforeKeys.foldl (fun r c => recSet r c (dGet lot c)) r1
  let r3 := recSet r2 "car_keys" (pyOr (dGet lot "keys") (dGet lot "car_keys"))
  let r4 := lotColsAfterKeys.foldl (fun r c => recSet r c (dGet lot c)) r3
  let r5 := if jtruthy (recGet r4 "createdAt") then r4 else recSet r4 "createdAt" now
  let r6 := if jtruthy (recGet r5 "updatedAt") then r5 else recSet r5 "updatedAt" now
  pure r6

/-- Per-column value of the direct-items shape (step4 lines 264-305):
nested `sale`, `productLocation` and `productType` dispatch, the
`keys`-or-`car_keys` case, and plain `item.get(col)` otherwise. -/
def shapeBValue (item : List (String × JVal)) (col : String) : JVal :=
  if saleCols.contains col then
    match dictFind item "sale" with
    | some (JVal.jobj sfs) =>
        if col == "saleName" then dGet sfs "name"
        else if col == "saleStatus" then dGet sfs "status"
        else dGet sfs col
    | _ => dGet item col
  else if locCols.contains col then
    match dictFind item "productLocation" with
    | some (JVal.jobj pfs) =>
        if col == "productLocationCity" then dGet pfs "city"
        else if col == "productLocationSuburb" then dGet pfs "suburb"
        else if col == "productLocationState" then dGet pfs "state"
        else dGet pfs "timeZone"
    | _ => dGet item col
  else if typeCols.contains col then
    match dictFind item "productType" with
    | some (JVal.jobj tfs) =>
        if col == "productTypeCode" then dGet tfs "code" else dGet tfs "title"
    | _ => dGet item col
  else if col == "car_keys" then
    pyOr (dGet item "keys") (dGet item "car_keys")
  else
    dGet item col

/-- One record of the direct-items shape (step4 lines 257-313). -/
def recordFromItem (item : List (String × JVal)) (schemaCols : List String)
    (now : JVal) : JRecord :=
  let r := schemaCols.foldl (fun r c => recSet r c (shapeBValue item c)) []
  let r1 := if jtruthy (recGet r "createdAt") then r else recSet r "createdAt" now
  if jtruthy (recGet r1 "updatedAt") then r1 else recSet r1 "updatedAt" now

/-- Sale-plus-lots branch (step4 lines 101-239): `data.get('sale', ...)` and
`data.get('lots', [])` with defaults, then iteration over the lots,
skipping non-dict entries. -/
def shapeAProcess (fs : List (String × JVal)) (schemaCols : List String)
    (now : JVal) : Except String (List JRecord) := do
  let saleInfo := (dictFind fs "sale").getD (JVal.jobj [])
  let lots := (dictFind fs "lots").getD (JVal.jarr [])
  let lotList ← jiterE lots
  lotList.foldlM (fun acc lot =>
    match lot with
    | JVal.jobj lfs => do
        let r ← recordFromLot saleInfo lfs schemaCols now
        pure (acc ++ [r])
    | _ => pure acc) ([] : List JRecord)

/-- Direct-items branch (step4 lines 241-313): item extraction by the
`value` / list / `items` / single-object cascade, then iteration over the
items, skipping non-dict entries. -/
def shapeBProcess (data : JVal) (schemaCols : List String)
    (now : JVal) : Except String (List JRecord) := do
  let hasValue ← jmemE data "value"
  let items ←
    if hasValue then jidxE data "value"
    else
      match data with
      | JVal.jarr xs => pure (JVal.jarr xs)
      | JVal.jobj fs =>
          if fs.any (fun f => f.1 == "items") then jidxE data "items"
          else pure (JVal.jarr [data])
      | _ => pure (JVal.jarr [data])
  let itemList ← jiterE items
  pure (itemList.foldl (fun acc item =>
    match item with
    | JVal.jobj ifs => acc ++ [recordFromItem ifs schemaCols now]
    | _ => acc) ([] : List JRecord))

/-- Body of `flatten_json_data` inside its `try` (step4 lines 95-318):
`json.load` (whose failure propagates into the `try`), then the structural
shape test `isinstance(data, dict) and 'sale' in data and 'lots' in data`. -/
def flattenCore (loaded : Except String JVal) (schemaCols : List String)
    (now : JVal) : Except String (List JRecord) := do
  let data ← loaded
  match data with
  | JVal.jobj fs =>
      if (fs.any (fun f => f.1 == "sale")) && (fs.any (fun f => f.1 == "lots")) then
        shapeAProcess fs schemaCols now
      else
        shapeBProcess data schemaCols now
  | _ => shapeBProcess data schemaCols now

/-- Embedding of `SaleInfoLoader.flatten_json_data` (lines 81-323): the whole
body sits inside `try/except Exception`, whose handler logs and returns the
empty record list.  `loaded` is the outcome of `open` plus `json.load` for
the file; `now` stands for `datetime.now()`. -/
def flatten_json_data (loaded : Except String JVal) (schemaCols : List String)
    (now : JVal) : Except String (List JRecord) :=
  match flattenCore loaded schemaCols now with
  | Except.ok rs => Except.ok rs
  | Except.error _ => Except.ok []

/- ## Ingestion orchestrator: `SaleInfoLoader.process_all_files` (lines 503-600)
and `SaleInfoLoader.insert_data` (lines 420-449). -/

/-- Embedding of `insert_data`: empty DataFrame returns 0; otherwise the
`write_to_sql` call (which swallows `to_sql` errors) is made inside a
`try` whose `except` branch returns -1, and on fall-through the method
returns `len(df)`.  The pair is (table after, return value). -/
def insert_data (toSqlRaises : Bool) (table : List JRecord)
    (records : List JRecord) : List JRecord × Int :=
  if records.isEmpty then (table, 0)
  else
    match write_to_sql toSqlRaises table records with
    | (t2, Except.ok _) => (t2, Int.ofNat records.length)
    | (t2, Except.error _) => (t2, -1)

/-- Embedding of `process_all_files`: flatten every JSON file, remember the
files that produced at least one record (`successfully_processed_files`),
bail out when no records were collected, insert the combined batch once,
and move the contributing files exactly when `inserted_count > 0`
(file moves are modelled as always succeeding).  The result is
(overall success, table after, names of files moved to the uploaded
folder).  DataFrame column reordering, the `keys` rename and the dtype
coercions of the source change column values, not which files move;
they are not modelled. -/
def process_all_files (schemaCols : List String)
    (files : List (String × Except String JVal)) (now : JVal)
    (table : List JRecord) (toSqlRaises : Bool) :
    Bool × List JRecord × List String :=
  if schemaCols.isEmpty then (false, table, [])
  else if files.isEmpty then (false, table, [])
  else
    let flattened := files.map (fun f =>
      (f.1, match flatten_json_data f.2 schemaCols now with
            | Except.ok rs => rs
            | Except.error _ => []))
    let contributing := flattened.filter (fun p => !(p.2.isEmpty))
    let allRecords := flattened.foldl (fun acc p => acc ++ p.2) ([] : List JRecord)
    if allRecords.isEmpty then (false, table, [])
    else
      match insert_data toSqlRaises table allRecords with
      | (t2, inserted) =>
          if inserted > 0 then (true, t2, contributing.map (fun p => p.1))
          else (false, t2, [])

/- ## Lemmas about the pagination loop -/

theorem paginateLoop_fetchTS (T S : Nat) (hS : 0 < S) :
    ∀ (fuel q : Nat), q * S < T → T - q * S ≤ fuel →
      paginateLoop (fetchTS T S) fuel (q + 1) (q * S) = some ((T + S - 1) / S, T) := by
  intro fuel
  induction fuel with
  | zero =>
    intro q hq hle
    omega
  | succ n ih =>
    intro q hq hle
    have hfetch : fetchTS T S (q + 1) = some ⟨T, min S (T - q * S)⟩ := by
      simp [fetchTS]
    rw [paginateLoop, hfetch]
    by_cases hcase : (q + 1) * S < T
    · have hSle : S ≤ T - q * S := by
        rw [Nat.succ_mul] at hcase
        omega
      rw [Nat.min_eq_left hSle]
      dsimp only
      have hc : q * S + S = (q + 1) * S := (Nat.succ_mul q S).symm
      rw [hc, if_pos hcase]
      have h2 : T - (q + 1) * S ≤ n := by
        rw [Nat.succ_mul]
        omega
      exact ih (q + 1) hcase h2
    · push_neg at hcase
      have hTle : T - q * S ≤ S := by
        rw [Nat.succ_mul] at hcase
        omega
      rw [Nat.min_eq_right hTle]
      dsimp only
      have hc : q * S + (T - q * S) = T := by omega
      rw [hc, if_neg (lt_irrefl T)]
      have hdiv : (T + S - 1) / S = q + 1 := by
        have hmul1 : (q + 1) * S = q * S + S := Nat.succ_mul q S
        have hmul2 : (q + 1 + 1) * S = q * S + S + S := by ring
        have lo : (q + 1) * S ≤ T + S - 1 := by omega
        have hi : T + S - 1 < (q + 1 + 1) * S := by
          rw [Nat.succ_mul] at hcase
          omega
        exact Nat.div_eq_of_lt_le lo hi
      rw [hdiv]

/-- C4: pagination completeness.  Against a source that reports a fixed total
`T` spread across pages of size `S` (page `p` yielding
`min S (T - (p-1)*S)` items), the pagination loop of
`process_single_auction` terminates after fetching exactly pages 1 through
`ceil(T/S)` and the combined item count over the fetched pages equals `T`;
the stop happens because the collected count has reached the most recently
reported total. -/
theorem pagination_completeness (T S : Nat) (hT : 0 < T) (hS : 0 < S) :
    process_single_auction (fetchTS T S) T = some ((T + S - 1) / S, T) := by
  have h := paginateLoop_fetchTS T S hS T 0 (by omega) (by omega)
  simpa [process_single_auction] using h

/-- Witness for C4 at the scenario of the specification: reported total 250,
page size 100, pages yielding 100, 100 and 50 items; the loop fetches
exactly pages 1 to 3 and collects 250 items. -/
theorem pagination_completeness_witness :
    process_single_auction (fetchTS 250 100) 250 = some (3, 250) := by
  have h := pagination_completeness 250 100 (by norm_num) (by norm_num)
  norm_num at h
  exact h

/-- C5: the pagination loop does NOT stop on an inconsistent empty page.
Against a server that always answers with a successfully fetched page
carrying zero items while reporting a positive total, the loop of
`process_single_auction` keeps requesting further pages forever: for every
fuel bound it fails to terminate.  This refutes the claimed
stop-with-warning behaviour; the source has no empty-page guard. -/
theorem empty_page_never_stops :
    ∀ (fuel page : Nat), paginateLoop inconsistentFetch fuel page 0 = none := by
  intro fuel
  induction fuel with
  | zero => intro page; rfl
  | succ n ih =>
    intro page
    rw [paginateLoop]
    show (if 0 + (0 : Nat) < 10 then paginateLoop inconsistentFetch n (page + 1) (0 + 0)
          else some (page, 0 + 0)) = none
    rw [if_pos (by omega)]
    exact ih (page + 1)

/-- C9: the DB write layer swallows insert errors.  Whatever the underlying
`to_sql` call does, `write_to_sql` raises nothing towards its caller and
behaves identically (returns `None`) whether the insert raised or
succeeded, so callers cannot distinguish the two outcomes. -/
theorem write_to_sql_never_raises {α : Type} (raises : Bool) (table rows : List α) :
    (write_to_sql raises table rows).2 = Except.ok () ∧
      (write_to_sql true table rows).2 = (write_to_sql false table rows).2 := by
  cases raises <;> simp [write_to_sql, to_sqlTable]

/- ## Lemmas about the window-function dedup model -/

theorem pickMax_mem : ∀ (l : List Row) (b : Row), pickMax b l ∈ b :: l := by
  intro l
  induction l with
  | nil => intro b; rw [pickMax]; exact List.mem_cons_self _ _
  | cons x xs ih =>
    intro b
    rw [pickMax]
    have hin : (if b.okey < x.okey then x else b) ∈ b :: x :: xs := by
      split_ifs <;> simp
    rcases List.mem_cons.mp (ih (if b.okey < x.okey then x else b)) with h | h
    · rw [h]; exact hin
    · exact List.mem_cons_of_mem _ (List.mem_cons_of_mem _ h)

theorem pickMax_okey : ∀ (l : List Row) (b : Row),
    b.okey ≤ (pickMax b l).okey ∧ ∀ x ∈ l, x.okey ≤ (pickMax b l).okey := by
  intro l
  induction l with
  | nil => intro b; exact ⟨le_refl _, by simp⟩
  | cons x xs ih =>
    intro b
    rw [pickMax]
    obtain ⟨h1, h2⟩ := ih (if b.okey < x.okey then x else b)
    have hb : b.okey ≤ (if b.okey < x.okey then x else b).okey := by
      split_ifs with hbx
      · omega
      · exact le_refl _
    have hx : x.okey ≤ (if b.okey < x.okey then x else b).okey := by
      split_ifs with hbx
      · exact le_refl _
      · omega
    refine ⟨le_trans hb h1, ?_⟩
    intro y hy
    rcases List.mem_cons.mp hy with hy | hy
    · rw [hy]; exact le_trans hx h1
    · exact h2 y hy

theorem mem_rowsFor {t : List Row} {k : String} {x : Row} :
    x ∈ rowsFor t k ↔ x ∈ t ∧ x.pkey = k := by
  simp [rowsFor, List.mem_filter]

theorem chooseRow_spec {t : List Row} {k : String} {row : Row}
    (h : chooseRow t k = some row) :
    row ∈ t ∧ row.pkey = k ∧ ∀ x ∈ t, x.pkey = k → x.okey ≤ row.okey := by
  unfold chooseRow at h
  cases hr : rowsFor t k with
  | nil => rw [hr] at h; cases h
  | cons r rs =>
    rw [hr] at h
    have hrow : pickMax r rs = row := by injection h
    have hmem : row ∈ rowsFor t k := by
      rw [hr, ← hrow]; exact pickMax_mem rs r
    obtain ⟨hmt, hpk⟩ := mem_rowsFor.mp hmem
    refine ⟨hmt, hpk, ?_⟩
    intro x hx hxk
    have hxr : x ∈ rowsFor t k := mem_rowsFor.mpr ⟨hx, hxk⟩
    rw [hr] at hxr
    obtain ⟨hr1, hr2⟩ := pickMax_okey rs r
    rcases List.mem_cons.mp hxr with hx2 | hx2
    · rw [hx2, ← hrow]; exact hr1
    · rw [← hrow]; exact hr2 x hx2

theorem chooseRow_isSome {t : List Row} {k : String} (h : ∃ x ∈ t, x.pkey = k) :
    ∃ row, chooseRow t k = some row := by
  obtain ⟨x, hx, hk⟩ := h
  have hmem : x ∈ rowsFor t k := mem_rowsFor.mpr ⟨hx, hk⟩
  unfold chooseRow
  cases hr : rowsFor t k with
  | nil => rw [hr] at hmem; cases hmem
  | cons r rs => exact ⟨_, rfl⟩

theorem mem_insKey {acc : List String} {k a : String} :
    a ∈ insKey acc k ↔ a ∈ acc ∨ a = k := by
  unfold insKey
  split_ifs with hk
  · constructor
    · exact Or.inl
    · rintro (h | h)
      · exact h
      · rw [h]; exact hk
  · simp

theorem nodup_insKey {acc : List String} {k : String} (h : acc.Nodup) :
    (insKey acc k).Nodup := by
  unfold insKey
  split_ifs with hk
  · exact h
  · simp [List.nodup_append, h, hk]

theorem mem_keysAux : ∀ (rows : List Row) (acc : List String) (a : String),
    a ∈ keysAux acc rows ↔ a ∈ acc ∨ a ∈ rows.map Row.pkey := by
  intro rows
  induction rows with
  | nil => intro acc a; simp [keysAux]
  | cons r rest ih =>
    intro acc a
    rw [keysAux, ih]
    rw [mem_insKey]
    simp
    tauto

theorem nodup_keysAux : ∀ (rows : List Row) (acc : List String),
    acc.Nodup → (keysAux acc rows).Nodup := by
  intro rows
  induction rows with
  | nil => intro acc h; exact h
  | cons r rest ih => intro acc h; exact ih _ (nodup_insKey h)

theorem mem_keysFirst {t : List Row} {a : String} :
    a ∈ keysFirst t ↔ a ∈ t.map Row.pkey := by
  rw [keysFirst, mem_keysAux]
  simp

theorem nodup_keysFirst (t : List Row) : (keysFirst t).Nodup :=
  nodup_keysAux t [] List.nodup_nil

theorem keysAux_eq_of_nodup : ∀ (rows : List Row) (acc : List String),
    (∀ a ∈ rows.map Row.pkey, a ∉ acc) → (rows.map Row.pkey).Nodup →
    keysAux acc rows = acc ++ rows.map Row.pkey := by
  intro rows
  induction rows with
  | nil => intro acc _ _; simp [keysAux]
  | cons r rest ih =>
    intro acc hnm hnd
    rw [keysAux]
    have hr : r.pkey ∉ acc := hnm r.pkey (by simp)
    have hins : insKey acc r.pkey = acc ++ [r.pkey] := by
      unfold insKey; rw [if_neg hr]
    rw [hins]
    rw [List.map_cons, List.nodup_cons] at hnd
    have hrest : ∀ a ∈ rest.map Row.pkey, a ∉ acc ++ [r.pkey] := by
      intro a ha
      simp only [List.mem_append, List.mem_singleton]
      rintro (h | h)
      · exact hnm a (by simp [ha]) h
      · rw [h] at ha; exact hnd.1 ha
    rw [ih (acc ++ [r.pkey]) hrest hnd.2]
    simp

theorem map_pkey_filterMap_chooseRow (t : List Row) :
    ∀ ks : List String, (∀ k ∈ ks, k ∈ t.map Row.pkey) →
      (ks.filterMap (chooseRow t)).map Row.pkey = ks := by
  intro ks
  induction ks with
  | nil => intro _; simp
  | cons k rest ih =>
    intro h
    have hk : k ∈ t.map Row.pkey := h k (by simp)
    obtain ⟨x, hx, hxk⟩ := List.mem_map.mp hk
    obtain ⟨row, hrow⟩ := chooseRow_isSome ⟨x, hx, hxk⟩
    rw [List.filterMap_cons, hrow]
    rw [List.map_cons]
    rw [(chooseRow_spec hrow).2.1]
    rw [ih (fun a ha => h a (by simp [ha]))]

theorem map_pkey_dedupTable (t : List Row) :
    (dedupTable t).map Row.pkey = keysFirst t :=
  map_pkey_filterMap_chooseRow t (keysFirst t) (fun _ hk => mem_keysFirst.mp hk)

theorem length_dedupTable (t : List Row) :
    (dedupTable t).length = distinctPartitionKeys t := by
  have h := congrArg List.length (map_pkey_dedupTable t)
  rw [List.length_map] at h
  exact h

theorem keysFirst_dedupTable (t : List Row) :
    keysFirst (dedupTable t) = keysFirst t := by
  have h := keysAux_eq_of_nodup (dedupTable t) []
    (by intro a _ ha; cases ha)
    (by rw [map_pkey_dedupTable]; exact nodup_keysFirst t)
  rw [keysFirst, h, map_pkey_dedupTable]
  simp

theorem filter_filterMap_chooseRow_nil (t : List Row) (k : String) :
    ∀ ks : List String, (∀ kk ∈ ks, kk ∈ t.map Row.pkey) → k ∉ ks →
      (ks.filterMap (chooseRow t)).filter (fun x => decide (x.pkey = k)) = [] := by
  intro ks
  induction ks with
  | nil => intro _ _; simp
  | cons k2 rest ih =>
    intro hmem hnk
    have hk2 : k2 ∈ t.map Row.pkey := hmem k2 (by simp)
    obtain ⟨x, hx, hxk⟩ := List.mem_map.mp hk2
    obtain ⟨row, hrow⟩ := chooseRow_isSome ⟨x, hx, hxk⟩
    rw [List.filterMap_cons, hrow, List.filter_cons]
    have hpk : row.pkey = k2 := (chooseRow_spec hrow).2.1
    have hne : ¬ (row.pkey = k) := by
      rw [hpk]
      intro hcon
      exact hnk (by simp [hcon])
    rw [if_neg (by simpa using hne)]
    exact ih (fun a ha => hmem a (by simp [ha])) (fun hcon => hnk (by simp [hcon]))

theorem filter_filterMap_chooseRow (t : List Row) (k : String) (row : Row)
    (hrow : chooseRow t k = some row) :
    ∀ ks : List String, ks.Nodup → (∀ kk ∈ ks, kk ∈ t.map Row.pkey) → k ∈ ks →
      (ks.filterMap (chooseRow t)).filter (fun x => decide (x.pkey = k)) = [row] := by
  intro ks
  induction ks with
  | nil => intro _ _ h; cases h
  | cons k2 rest ih =>
    intro hnd hmem hk
    rw [List.nodup_cons] at hnd
    by_cases hkk : k = k2
    · subst hkk
      rw [List.filterMap_cons, hrow, List.filter_cons]
      have hpk : row.pkey = k := (chooseRow_spec hrow).2.1
      rw [if_pos (by simpa using hpk)]
      rw [filter_filterMap_chooseRow_nil t k rest (fun a ha => hmem a (by simp [ha])) hnd.1]
    · have hkrest : k ∈ rest := by
        rcases List.mem_cons.mp hk with h | h
        · exact absurd h hkk
        · exact h
      have hk2 : k2 ∈ t.map Row.pkey := hmem k2 (by simp)
      obtain ⟨x, hx, hxk⟩ := List.mem_map.mp hk2
      obtain ⟨row2, hrow2⟩ := chooseRow_isSome ⟨x, hx, hxk⟩
      rw [List.filterMap_cons, hrow2, List.filter_cons]
      have hpk2 : row2.pkey = k2 := (chooseRow_spec hrow2).2.1
      have hne : ¬ (row2.pkey = k) := by
        rw [hpk2]
        intro hcon
        exact hkk hcon.symm
      rw [if_neg (by simpa using hne)]
      exact ih hnd.2 (fun a ha => hmem a (by simp [ha])) hkrest

theorem dedupTable_ne_nil {t : List Row} (h : t ≠ []) : dedupTable t ≠ [] := by
  cases t with
  | nil => exact absurd rfl h
  | cons r rest =>
    intro hnil
    have hk : r.pkey ∈ keysFirst (r :: rest) := mem_keysFirst.mpr (by simp)
    have hlen := length_dedupTable (r :: rest)
    rw [hnil] at hlen
    rw [distinctPartitionKeys] at hlen
    simp only [List.length_nil] at hlen
    have hkf : keysFirst (r :: rest) = [] := List.length_eq_zero.mp (by omega)
    rw [hkf] at hk
    cases hk

/-- C3: reconciliation correctness.  For every non-empty table and every
partition-key value present in it, after a `clean_duplicates` run (with the
backup write and the re-insert succeeding, as in normal operation) exactly
one row with that partition key remains in the table, it comes from the
original table, and its order-key value is maximal among all original rows
sharing that partition key. -/
theorem reconciliation_correctness (t : List Row) (b0 : Option (List Row)) (k : String)
    (ht : t ≠ []) (hk : k ∈ t.map Row.pkey) :
    ∃ r : Row,
      (clean_duplicates t b0 false false).table.filter (fun x => decide (x.pkey = k)) = [r] ∧
      r ∈ t ∧ r.pkey = k ∧ ∀ x ∈ t, x.pkey = k → x.okey ≤ r.okey := by
  have hd : dedupTable t ≠ [] := dedupTable_ne_nil ht
  have htab : (clean_duplicates t b0 false false).table = dedupTable t := by
    simp [clean_duplicates, hd, write_to_sql, to_sqlTable]
  obtain ⟨x, hx, hxk⟩ := List.mem_map.mp hk
  obtain ⟨row, hrow⟩ := chooseRow_isSome ⟨x, hx, hxk⟩
  obtain ⟨hm, hp, hmax⟩ := chooseRow_spec hrow
  refine ⟨row, ?_, hm, hp, hmax⟩
  rw [htab, dedupTable]
  exact filter_filterMap_chooseRow t k row hrow (keysFirst t) (nodup_keysFirst t)
    (fun a ha => mem_keysFirst.mp ha) (mem_keysFirst.mpr hk)

/-- Witness for C3 at the scenario of the specification: three rows with
partition key A and order keys 1, 5, 3; after reconciliation exactly one
row with key A remains and its order key 5 is maximal. -/
theorem reconciliation_correctness_witness :
    ∃ r : Row,
      (clean_duplicates
          ([⟨"A", 1, "r1"⟩, ⟨"A", 5, "r2"⟩, ⟨"A", 3, "r3"⟩] : List Row)
          none false false).table.filter (fun x => decide (x.pkey = "A")) = [r] ∧
      r ∈ ([⟨"A", 1, "r1"⟩, ⟨"A", 5, "r2"⟩, ⟨"A", 3, "r3"⟩] : List Row) ∧
      r.pkey = "A" ∧
      ∀ x ∈ ([⟨"A", 1, "r1"⟩, ⟨"A", 5, "r2"⟩, ⟨"A", 3, "r3"⟩] : List Row),
        x.pkey = "A" → x.okey ≤ r.okey :=
  reconciliation_correctness _ none "A" (by decide) (by decide)

/-- C6: reconciliation idempotence.  Running `clean_duplicates` a second time
on the table and backup file left by a first run (insert succeeding, no
intervening inserts) returns the same row count, and that count equals the
number of distinct partition-key values of the original table. -/
theorem reconciliation_idempotence (t : List Row) (b0 : Option (List Row)) :
    (clean_duplicates (clean_duplicates t b0 false false).table
        (clean_duplicates t b0 false false).backupFile false false).ret
      = (clean_duplicates t b0 false false).ret ∧
    (clean_duplicates t b0 false false).ret = Int.ofNat (distinctPartitionKeys t) := by
  by_cases hd : dedupTable t = []
  · have hdist : distinctPartitionKeys t = 0 := by
      have hlen := length_dedupTable t
      rw [hd] at hlen
      simpa using hlen.symm
    simp [clean_duplicates, hd, hdist]
  · have hd2 : dedupTable (dedupTable t) ≠ [] := by
      intro hcon
      have hlen := length_dedupTable (dedupTable t)
      rw [hcon] at hlen
      simp only [List.length_nil] at hlen
      rw [distinctPartitionKeys, keysFirst_dedupTable] at hlen
      have h4 := length_dedupTable t
      rw [distinctPartitionKeys] at h4
      have h5 : (dedupTable t).length = 0 := by omega
      exact hd (List.length_eq_zero.mp h5)
    simp only [clean_duplicates, hd, write_to_sql, to_sqlTable]
    simp [hd2]
    have hlen2 : (dedupTable (dedupTable t)).length = (dedupTable t).length := by
      rw [length_dedupTable, distinctPartitionKeys, keysFirst_dedupTable,
        ← distinctPartitionKeys, ← length_dedupTable]
    constructor
    · rw [hlen2]
    · rw [length_dedupTable]

/-- C7: backup precedes destruction.  In every `clean_duplicates` run, each
occurrence of the `TRUNCATE` action in the event trace is preceded by the
completed backup write, and the backup file then holds the full
deduplicated result set; a run whose backup write raised performs no
truncate at all. -/
theorem backup_precedes_truncate (t : List Row) (b0 : Option (List Row)) (br tr : Bool)
    (i : Nat) (h : (clean_duplicates t b0 br tr).events.get? i = some Ev.truncate) :
    (∃ j, j < i ∧ (clean_duplicates t b0 br tr).events.get? j = some Ev.backupWrite) ∧
    (clean_duplicates t b0 br tr).backupFile = some (dedupTable t) := by
  have hev : (clean_duplicates t b0 br tr).events = [] ∨
      ((clean_duplicates t b0 br tr).events = [Ev.backupWrite, Ev.truncate, Ev.insertMain] ∧
        (clean_duplicates t b0 br tr).backupFile = some (dedupTable t)) := by
    by_cases hd : dedupTable t = []
    · left; simp [clean_duplicates, hd]
    · cases br
      · right
        cases tr <;> simp [clean_duplicates, hd, write_to_sql, to_sqlTable]
      · left; simp [clean_duplicates, hd]
  rcases hev with hnil | ⟨hev, hb⟩
  · rw [hnil] at h
    simp at h
  · refine ⟨?_, hb⟩
    rw [hev] at h
    have hi : i = 1 := by
      rcases i with _ | _ | _ | i2
      · simp at h
      · rfl
      · simp at h
      · simp at h
    subst hi
    exact ⟨0, by omega, by rw [hev]; rfl⟩

/-- Witness for C7: a concrete successful run on a one-row table, where the
truncate sits at index 1 of the trace and the backup write at index 0. -/
theorem backup_precedes_truncate_witness :
    (∃ j, j < 1 ∧
        (clean_duplicates ([⟨"A", 1, "r1"⟩] : List Row) none false false).events.get? j
          = some Ev.backupWrite) ∧
    (clean_duplicates ([⟨"A", 1, "r1"⟩] : List Row) none false false).backupFile =
      some (dedupTable ([⟨"A", 1, "r1"⟩] : List Row)) :=
  backup_precedes_truncate _ _ _ _ 1 (by decide)

/-- C2: the reconciliation fallback is unreachable, so a failed re-insert
leaves the table empty.  Because `write_to_sql` swallows every `to_sql`
exception, the inner `except` branch of `clean_duplicates` that would
reload from the backup JSON artifact can never run, in any run; and on the
concrete one-row table with the re-insert raising after the truncate, the
run ends with the table empty and return value 0, with no fallback
attempt.  This refutes the claim that a failed re-insert triggers a reload
from the backup. -/
theorem reconciliation_fallback_unreachable :
    (∀ (t : List Row) (b0 : Option (List Row)) (br tr : Bool),
        Ev.insertFallback ∉ (clean_duplicates t b0 br tr).events) ∧
    (clean_duplicates ([⟨"A", 1, "r1"⟩] : List Row) none false true).table = [] ∧
    (clean_duplicates ([⟨"A", 1, "r1"⟩] : List Row) none false true).ret = 0 := by
  refine ⟨?_, by decide, by decide⟩
  intro t b0 br tr
  by_cases hd : dedupTable t = []
  · simp [clean_duplicates, hd]
  · cases br
    · cases tr <;> simp [clean_duplicates, hd, write_to_sql, to_sqlTable]
    · simp [clean_duplicates, hd]

/-- C10: restore is a no-op on a missing or empty backup.  When the backup
file does not exist or parses to an empty collection, `restore_from_json`
returns -1 without issuing the `TRUNCATE` and leaves the table unchanged;
conversely, every run that truncates has successfully read a non-empty
backup first. -/
theorem restore_noop_on_missing_or_empty (backupFS : Option (Except String (List Row)))
    (t : List Row) (sq : Bool) :
    ((backupFS = none ∨ backupFS = some (Except.ok [])) →
        (restore_from_json backupFS t sq).ret = -1 ∧
        (restore_from_json backupFS t sq).table = t ∧
        Ev.truncate ∉ (restore_from_json backupFS t sq).events) ∧
    (Ev.truncate ∈ (restore_from_json backupFS t sq).events →
        ∃ d : List Row, backupFS = some (Except.ok d) ∧ d ≠ []) := by
  constructor
  · rintro (h | h) <;> subst h <;> simp [restore_from_json]
  · intro h
    cases backupFS with
    | none => simp [restore_from_json] at h
    | some ex =>
      cases ex with
      | error e => simp [restore_from_json] at h
      | ok d =>
        by_cases hde : d = []
        · subst hde
          simp [restore_from_json] at h
        · exact ⟨d, rfl, hde⟩

/-- Witness for C10: restoring with no backup file present returns -1 and
leaves the one-row table untouched, with no truncate in the trace. -/
theorem restore_noop_witness :
    (restore_from_json none ([⟨"A", 1, "r1"⟩] : List Row) false).ret = -1 ∧
    (restore_from_json none ([⟨"A", 1, "r1"⟩] : List Row) false).table =
      ([⟨"A", 1, "r1"⟩] : List Row) ∧
    Ev.truncate ∉ (restore_from_json none ([⟨"A", 1, "r1"⟩] : List Row) false).events :=
  (restore_noop_on_missing_or_empty none _ false).1 (Or.inl rfl)

/-- C8: flatten never raises.  For every outcome of loading the JSON file
(including a load failure and every malformed, empty, non-dict or
shape-ambiguous document) and every schema column list,
`flatten_json_data` returns an ordinary (possibly empty) record list and
never propagates an exception to its caller: the try block around its
whole body catches everything and returns the empty list. -/
theorem flatten_never_raises (loaded : Except String JVal) (schemaCols : List String)
    (now : JVal) :
    ∃ rs : List JRecord, flatten_json_data loaded schemaCols now = Except.ok rs := by
  rcases h : flattenCore loaded schemaCols now with e | rs
  · exact ⟨[], by unfold flatten_json_data; rw [h]⟩
  · exact ⟨rs, by unfold flatten_json_data; rw [h]⟩

/-- C1: archiving is NOT insert-success-only.  On a run over one raw file
holding one well-formed record, with the underlying bulk `to_sql` insert
raising, `process_all_files` still reports success and still moves the
contributing file to the uploaded folder, while the table received no
rows: `write_to_sql` swallows the insert exception, so `insert_data`
returns the positive DataFrame length and the archive branch runs.  This
refutes the claim that a raising insert prevents any file move. -/
theorem archive_despite_insert_failure :
    (process_all_files ["id"] [("f1.json", Except.ok (JVal.jobj [("id", JVal.jnum 1)]))]
        (JVal.jstr "t0") [] true).1 = true ∧
    (process_all_files ["id"] [("f1.json", Except.ok (JVal.jobj [("id", JVal.jnum 1)]))]
        (JVal.jstr "t0") [] true).2.2 = ["f1.json"] ∧
    (process_all_files ["id"] [("f1.json", Except.ok (JVal.jobj [("id", JVal.jnum 1)]))]
        (JVal.jstr "t0") [] true).2.1 = ([] : List JRecord) :=
  ⟨rfl, rfl, rfl⟩
